import Mathlib

/-!
Verification of the TranslatedVocabularyAnki pipeline (src/cli.py) against its
natural-language specification.

The Python code is shallowly embedded: Python strings are Lean `String`
(a structure wrapping `List Char`), Python dicts are insertion-ordered
association lists, fallible code returns `Except`, and the external
collaborators (Deepl, Google Translate, gTTS, genanki, the filesystem) are
parameters or abstract records of the effects the code performs on them.
All definitions are structurally recursive so that concrete runs evaluate
by `decide` / `rfl`.
-/

namespace VocabAnki

/-! ## Python string primitives

`cli.py` manipulates strings with `str.split`, `str.strip`, `str.lower`,
`str.splitlines`, `"sep".join`, `str.startswith` and `in`.  These are
modelled character-wise below.  `str.lower` is modelled as ASCII case
folding (`Char.toLower`); the vocabulary texts and delimiters the program
handles are covered exactly by this.
-/

/-- The whitespace set of Python's `str.isspace`, which is what `str.strip()`
strips.  Covers ASCII whitespace, the C1 separators, NEL, NBSP and the
Unicode space separators. -/
def pyIsSpace (c : Char) : Bool :=
  let n := c.toNat
  n == 0x20 || n == 0x09 || n == 0x0a || n == 0x0d || n == 0x0b || n == 0x0c ||
  (0x1c ≤ n && n ≤ 0x1f) || n == 0x85 || n == 0xa0 || n == 0x1680 ||
  (0x2000 ≤ n && n ≤ 0x200a) || n == 0x2028 || n == 0x2029 || n == 0x202f ||
  n == 0x205f || n == 0x3000

/-- Python `str.strip()` on the character list: drop leading and trailing
whitespace. -/
def pyStrip (l : List Char) : List Char :=
  ((l.dropWhile pyIsSpace).reverse.dropWhile pyIsSpace).reverse

/-- The line boundaries of Python `str.splitlines` (note: NBSP and the other
non-boundary whitespace characters are *not* line boundaries). -/
def isLineBoundary (c : Char) : Bool :=
  let n := c.toNat
  n == 0x0a || n == 0x0d || n == 0x0b || n == 0x0c ||
  (0x1c ≤ n && n ≤ 0x1e) || n == 0x85 || n == 0x2028 || n == 0x2029

/-- Python `str.splitlines`: split at line boundaries, treating `"\r\n"` as a
single boundary and producing no trailing empty line. -/
def pySplitlinesAux : List Char → List Char → List (List Char)
  | [], acc => if acc.isEmpty then [] else [acc.reverse]
  | '\r' :: '\n' :: rest, acc => acc.reverse :: pySplitlinesAux rest []
  | c :: rest, acc =>
    if isLineBoundary c then acc.reverse :: pySplitlinesAux rest []
    else pySplitlinesAux rest (c :: acc)

/-- Python `str.split(sep)` for a single-character separator (used for
`"\t"` and `"/"`). -/
def splitCharAux (sep : Char) : List Char → List Char → List (List Char)
  | [], acc => [acc.reverse]
  | c :: rest, acc =>
    if c = sep then acc.reverse :: splitCharAux sep rest []
    else splitCharAux sep rest (c :: acc)

/-- Python `str.split(" / ")`: split at each non-overlapping leftmost
occurrence of the three-character delimiter. -/
def splitSlashAux : List Char → List Char → List (List Char)
  | ' ' :: '/' :: ' ' :: rest, acc => acc.reverse :: splitSlashAux rest []
  | c :: rest, acc => splitSlashAux rest (c :: acc)
  | [], acc => [acc.reverse]

/-- Python `sep.join(parts)` on character lists. -/
def joinSep (sep : List Char) : List (List Char) → List Char
  | [] => []
  | [x] => x
  | x :: y :: xs => x ++ sep ++ joinSep sep (y :: xs)

/-- Python `str.lower`, modelled as ASCII case folding. -/
def pyLower (s : String) : String := ⟨s.data.map Char.toLower⟩

/-- Python `"x".split(" / ")` at the `String` level. -/
def pySplitSlash (s : String) : List String :=
  (splitSlashAux s.data []).map String.mk

/-- Python `" / ".join` at the `String` level. -/
def pyJoinSlash (parts : List String) : String :=
  ⟨joinSep [' ', '/', ' '] (parts.map String.data)⟩

/-- Python `"x".split("\t")` at the `String` level. -/
def pySplitTab (s : String) : List String :=
  (splitCharAux '\t' s.data []).map String.mk

/-- Python `line.startswith("#")`. -/
def pyStartsWithHash (line : String) : Bool :=
  match line.data with
  | '#' :: _ => true
  | _ => false

/-- Python `c in s` for a single character `c`. -/
def pyContainsChar (s : String) (c : Char) : Bool :=
  s.data.any (fun x => x = c)

/-! ## ReconciliationEngine: `process_translations` (src/cli.py:214-233)

```python
def process_translations(deepl: str, google: str, verification: str) -> tuple[str, str]:
    unique_phrases = {}
    for part in deepl.split(" / "):
        if (p := part.lower()) not in unique_phrases:
            unique_phrases[p] = part
    for part in google.split(" / "):
        if (p := part.lower()) not in unique_phrases:
            unique_phrases[p] = part
    verification_phrases = {}
    for part in verification.split(" / "):
        if (p := part.lower()) not in verification_phrases:
            verification_phrases[p] = part
    return " / ".join(unique_phrases.values()), " / ".join(verification_phrases.values())
```

The insertion-ordered dict keyed by the lowercased phrase is an association
list of `(lowercased key, original part)` pairs. -/

/-- One iteration of the dedup loops: insert `part` keyed by its lowercased
form unless the key is already present. -/
def insertUnique (m : List (String × String)) (part : String) : List (String × String) :=
  if m.any (fun kv => kv.1 = pyLower part) then m else m ++ [(pyLower part, part)]

/-- `process_translations` from src/cli.py:214-233. -/
def process_translations (deepl google verification : String) : String × String :=
  let unique_phrases := (pySplitSlash deepl).foldl insertUnique []
  let unique_phrases := (pySplitSlash google).foldl insertUnique unique_phrases
  let verification_phrases := (pySplitSlash verification).foldl insertUnique []
  (pyJoinSlash (unique_phrases.map Prod.snd),
   pyJoinSlash (verification_phrases.map Prod.snd))

/-! ### Specification-side deduplication

The spec (§4.3) describes the algorithm as: walk the variants in order,
inserting each into an ordered deduplication set keyed by lowercased form,
first-seen casing wins.  `dedupByLower` is that description, written
directly with an explicit set of already-seen lowercased keys. -/

/-- Keep the first occurrence of each case-insensitive variant, given the
set `seen` of lowercased keys already taken. -/
def dedupByLower (seen : List String) : List String → List String
  | [] => []
  | x :: xs =>
    if pyLower x ∈ seen then dedupByLower seen xs
    else x :: dedupByLower (pyLower x :: seen) xs

/-- The lowercased keys taken after walking `xs` starting from `seen`. -/
def seenAfter (seen : List String) : List String → List String
  | [] => seen
  | x :: xs =>
    if pyLower x ∈ seen then seenAfter seen xs
    else seenAfter (pyLower x :: seen) xs

/-! ## Python dicts as insertion-ordered association lists -/

/-- Python `d[k]` lookup (first — and with unique keys only — binding). -/
def dictLookup {α : Type} (m : List (Int × α)) (k : Int) : Option α :=
  match m with
  | [] => none
  | kv :: rest => if kv.1 = k then some kv.2 else dictLookup rest k

/-- Python `d[k] = v`: replace in place if the key exists, else append
(insertion order preserved). -/
def dictInsert {α : Type} (m : List (Int × α)) (k : Int) (v : α) : List (Int × α) :=
  if m.any (fun kv => kv.1 = k) then
    m.map (fun kv => if kv.1 = k then (k, v) else kv)
  else m ++ [(k, v)]

/-- Python `d.update(other)`. -/
def dictUpdate {α : Type} (m other : List (Int × α)) : List (Int × α) :=
  other.foldl (fun acc kv => dictInsert acc kv.1 kv.2) m

/-! ## VocabLoader: `load_vocab` (src/cli.py:102-128)

```python
def load_vocab(filepath: Path) -> tuple[dict[int, str], dict[int, list[str]]]:
    input_vocab = filepath.read_text().strip().splitlines()
    vocab_dict, tag_dict = {}, {}
    for line in input_vocab:
        if line.startswith("#"):
            continue
        index, phrase, *tags = line.strip().split("\t")
        index = int(index)
        if index in vocab_dict:
            raise ValueError(f"ID {index} of '{line}' is used twice! "
                             f"First occurrence:\n'{index}\t{vocab_dict[index]}'")
        vocab_dict[index] = phrase
        for tag in tags:
            if " " in tag:
                raise ValueError(f"Tag '{tag}' of phrase with ID {index} contains a space!"
                                 " Anki does not support this.")
        tag_dict[index] = tags
    return vocab_dict, tag_dict
```

Errors are modelled structurally: each constructor carries exactly the data
interpolated into the corresponding Python exception message.
`int(index)` is modelled for optionally signed ASCII decimal literals with
surrounding whitespace (Python additionally accepts underscores and
non-ASCII digits; no claim depends on those). -/

/-- Python `int(s)` for optionally signed ASCII decimal literals. -/
def digitsVal : List Char → Option Nat → Option Nat
  | [], acc => acc
  | c :: rest, acc =>
    if c.isDigit then
      digitsVal rest (acc.map (fun n => n * 10 + (c.toNat - 48)) <|> some (c.toNat - 48))
    else none

def pyInt? (s : String) : Option Int :=
  match pyStrip s.data with
  | '-' :: ds => (digitsVal ds none).map (fun n => -(n : Int))
  | '+' :: ds => (digitsVal ds none).map (fun n => (n : Int))
  | ds => (digitsVal ds none).map (fun n => (n : Int))

/-- The errors `load_vocab` can raise, with the data referenced by each
exception message. -/
inductive LoadError
  /-- `ValueError`: the id on `line` repeats; the message cites the whole
  offending `line`, the `id`, and the `firstPhrase` of its first use. -/
  | duplicateId (line : String) (id : Int) (firstPhrase : String)
  /-- `ValueError`: `tag` of the phrase with this `id` contains a space. -/
  | invalidTag (tag : String) (id : Int)
  /-- `ValueError` from `int(...)`: `idField` is not an integer literal. -/
  | malformedId (idField : String) (line : String)
  /-- `ValueError` from unpacking: fewer than two tab-separated fields. -/
  | malformedLine (line : String)
deriving DecidableEq, Repr

/-- The `for line in input_vocab` loop of `load_vocab`, with the two dicts
threaded through. -/
def load_vocab_loop :
    List String → List (Int × String) → List (Int × List String) →
      Except LoadError (List (Int × String) × List (Int × List String))
  | [], vocab_dict, tag_dict => .ok (vocab_dict, tag_dict)
  | line :: rest, vocab_dict, tag_dict =>
    if pyStartsWithHash line then load_vocab_loop rest vocab_dict tag_dict
    else
      match pySplitTab ⟨pyStrip line.data⟩ with
      | idField :: phrase :: tags =>
        match pyInt? idField with
        | some index =>
          match dictLookup vocab_dict index with
          | some firstPhrase => .error (.duplicateId line index firstPhrase)
          | none =>
            match tags.find? (fun t => pyContainsChar t ' ') with
            | some tag => .error (.invalidTag tag index)
            | none =>
                load_vocab_loop rest (dictInsert vocab_dict index phrase)
                  (dictInsert tag_dict index tags)
        | none => .error (.malformedId idField line)
      | _ => .error (.malformedLine line)

/-- The lines `load_vocab` iterates over: `read_text().strip().splitlines()`. -/
def vocabLines (text : String) : List String :=
  (pySplitlinesAux (pyStrip text.data) []).map String.mk

/-- `load_vocab` from src/cli.py:102-128, over the file's text. -/
def load_vocab (text : String) :
    Except LoadError (List (Int × String) × List (Int × List String)) :=
  load_vocab_loop (vocabLines text) [] []

/-! ### Per-line views used to state the VocabLoader claims -/

/-- The tab-separated fields of a (stripped) line. -/
def lineFields (line : String) : List String := pySplitTab ⟨pyStrip line.data⟩

/-- The integer id a non-comment line carries, when it parses. -/
def lineId? (line : String) : Option Int :=
  if pyStartsWithHash line then none
  else
    match lineFields line with
    | idField :: _ :: _ => pyInt? idField
    | _ => none

/-- The phrase field of a non-comment line. -/
def linePhrase? (line : String) : Option String :=
  if pyStartsWithHash line then none
  else
    match lineFields line with
    | _ :: phrase :: _ => some phrase
    | _ => none

/-- The tag fields of a non-comment line. -/
def lineTags (line : String) : List String :=
  if pyStartsWithHash line then []
  else
    match lineFields line with
    | _ :: _ :: tags => tags
    | _ => []

/-- A line the loop can process without a structural error: a comment, or a
line with at least two tab-separated fields whose first parses as an
integer. -/
def lineWf (line : String) : Bool :=
  pyStartsWithHash line ||
    match lineFields line with
    | idField :: _ :: _ => (pyInt? idField).isSome
    | _ => false


/-- Equality on `Except` results is decidable, so concrete runs of the
fallible functions below can be checked by `decide`. -/
instance {ε α : Type} [DecidableEq ε] [DecidableEq α] : DecidableEq (Except ε α) := fun x y =>
  match x, y with
  | .ok a, .ok b =>
    if h : a = b then .isTrue (by rw [h])
    else .isFalse (fun hc => h (Except.ok.inj hc))
  | .error e, .error f =>
    if h : e = f then .isTrue (by rw [h])
    else .isFalse (fun hc => h (Except.error.inj hc))
  | .ok _, .error _ => .isFalse (fun hc => Except.noConfusion hc)
  | .error _, .ok _ => .isFalse (fun hc => Except.noConfusion hc)

/-! ## Entry records

The per-entry dicts of `cli.py` hold the source/target/verification texts
(keyed by language code), and gain a `pronunciation_file` key in
`get_pronunciations` and a `tags` key in the `create`/`update` commands.
The progressive keys are modelled with `Option` fields. -/

structure Entry where
  source : String
  target : String
  verification : String
  pronunciation_file : Option String := none
  tags : Option (List String) := none
deriving DecidableEq, Repr, Inhabited

/-! ## TranslationOrchestrator: `obtain_translations` (src/cli.py:236-264)
and the provider-side cardinality guard of `translate_google`
(src/cli.py:208-211).

The network clients are external collaborators: `translate_google` is
modelled on the raw list of translations the batched API returns
(`zip(..., strict=True)` is the guard), and `obtain_translations` is
modelled on the two providers' result mappings (`google_output`,
`deepl_output`), which is exactly what its guard and loop consume.
`assert len(deepl_output) == len(google_output)` is the
`cardinalityMismatch` error; a failing `google_output[id]` / `vocab[id]`
subscript is the `keyError` error. -/

inductive OrchError
  | cardinalityMismatch
  | keyError
deriving DecidableEq, Repr

/-- `translate_google` (src/cli.py:179-211) downstream of the opaque API:
`zip(input_vocab.keys(), translations, strict=True)` raises unless the
provider returned exactly one text per input id. -/
def translate_google (input_vocab : List (Int × String)) (apiTranslations : List String) :
    Except OrchError (List (Int × String)) :=
  if apiTranslations.length = input_vocab.length then
    .ok ((input_vocab.map Prod.fst).zip apiTranslations)
  else .error .cardinalityMismatch

/-- The `for id, (deepl_translation, deepl_verification) in deepl_output.items()`
loop of `obtain_translations`, building the results dict. -/
def obtain_go (vocab google_output : List (Int × String)) :
    List (Int × String × String) → List (Int × Entry) →
      Except OrchError (List (Int × Entry))
  | [], results => .ok results
  | (id, tv) :: rest, results =>
    match dictLookup google_output id with
    | none => .error .keyError
    | some gt =>
      match dictLookup vocab id with
      | none => .error .keyError
      | some ph =>
        obtain_go vocab google_output rest
          (dictInsert results id
            { source := ph
              target := (process_translations tv.1 gt tv.2).1
              verification := (process_translations tv.1 gt tv.2).2 })

/-- `obtain_translations` (src/cli.py:236-264), on the two providers'
result mappings. -/
def obtain_translations (vocab google_output : List (Int × String))
    (deepl_output : List (Int × String × String)) :
    Except OrchError (List (Int × Entry)) :=
  if deepl_output.length = google_output.length then
    obtain_go vocab google_output deepl_output []
  else .error .cardinalityMismatch

/-! ## SnapshotDiffer: the classification loop of `update`
(src/cli.py:531-555).

`data.json` keys are `str(id)`; since `str` is injective on integers the
old snapshot is modelled keyed by the integer directly. -/

/-- The `for id, new_entry in input_vocab.items()` loop of `update`,
splitting entries into `new_vocab` (to translate) and `old_vocab_to_copy`
(retained). -/
def diff_go (old_vocab : List (Int × Entry)) :
    List (Int × String) → List (Int × String) → List (Int × Entry) →
      List (Int × String) × List (Int × Entry)
  | [], new_vocab, old_vocab_to_copy => (new_vocab, old_vocab_to_copy)
  | (id, new_entry) :: rest, new_vocab, old_vocab_to_copy =>
    match dictLookup old_vocab id with
    | none => diff_go old_vocab rest (dictInsert new_vocab id new_entry) old_vocab_to_copy
    | some old_entry =>
      if old_entry.source = new_entry then
        diff_go old_vocab rest new_vocab (dictInsert old_vocab_to_copy id old_entry)
      else diff_go old_vocab rest (dictInsert new_vocab id new_entry) old_vocab_to_copy

/-- The snapshot diff of `update` (src/cli.py:531-551). -/
def diff_vocab (input_vocab : List (Int × String)) (old_vocab : List (Int × Entry)) :
    List (Int × String) × List (Int × Entry) :=
  diff_go old_vocab input_vocab [] []

/-! ## DeckAssembler metadata and the packaging steps -/

/-- The deck-identity dict returned by `create_anki_deck`
(src/cli.py:373-379) and stored as `info.json`. -/
structure DeckInfo where
  deck_id : Int
  deck_name : String
  source_language : String
  target_language : String
  verification_language : String
deriving DecidableEq, Repr

/-- The metadata part of `create_anki_deck` (src/cli.py:286-379): the deck
writer itself is an external collaborator; what the pipeline observes is
the returned identity dict, including the
`deck_name = deck_name or f"Translated {language_name} vocabulary"`
resolution (src/cli.py:345), where both `None` and `""` are falsy.
`language_names` stands for the (network-derived) `get_language_names()`
catalogue. -/
def create_anki_deck_info (language_names : String → String)
    (target_language source_language verification_language : String)
    (deck_id : Int) (deck_name : Option String) : DeckInfo :=
  let language_name := language_names target_language
  let resolved_name :=
    match deck_name with
    | some n => if n = "" then "Translated " ++ language_name ++ " vocabulary" else n
    | none => "Translated " ++ language_name ++ " vocabulary"
  { deck_id := deck_id
    deck_name := resolved_name
    source_language := source_language
    target_language := target_language
    verification_language := verification_language }

/-- Python `Path(p).name`: the last `/`-separated component. -/
def pathName (p : String) : String :=
  (((splitCharAux '/' p.data []).map String.mk).getLastD "")

/-- The dataflow view of `get_pronunciations` (src/cli.py:267-283): each
entry gains `pronunciation_file = <output_dir>/<id>.mp3`, and one
`<id>.mp3` file is written into `output_dir` per entry (gTTS itself is an
external collaborator).  The object-identity behaviour of the same
function is modelled separately by `get_pronunciations`. -/
def get_pronunciations_entries (vocab : List (Int × Entry)) (output_dir : String) :
    List (Int × Entry) × List String :=
  (vocab.map (fun p =>
      (p.1, { p.2 with
              pronunciation_file := some (output_dir ++ "/" ++ toString p.1 ++ ".mp3") })),
   vocab.map (fun p => toString p.1 ++ ".mp3"))

/-! ## The `create` and `update` commands (src/cli.py:401-489, 492-607)

Filesystem, zip and timestamp mechanics are external; what is modelled is
which files end up inside the produced snapshot archive (`archiveFiles`,
by name within the archived temporary directory), the content of its
entry-data document (`dataEntries`, the dict serialised as `data.json`),
and the deck-identity metadata (`deckInfo`).  The provider clients are the
parameters `gB` (Google, per phrase) and `fA` (Deepl, per phrase, giving
target and back-translation). -/

inductive PipelineError
  | load (e : LoadError)
  | orch (e : OrchError)
  | keyError
  | deckInfoMismatch
deriving DecidableEq, Repr

/-- The `for id, t in new_tags.items(): results[id]["tags"] = t` loops
(src/cli.py:457-458 and 578-579); a missing id is a `KeyError`. -/
def assignTags :
    List (Int × Entry) → List (Int × List String) → Except PipelineError (List (Int × Entry))
  | results, [] => .ok results
  | results, (id, t) :: rest =>
    if results.any (fun kv => kv.1 = id) then
      assignTags
        (results.map (fun kv => if kv.1 = id then (kv.1, { kv.2 with tags := some t }) else kv))
        rest
    else .error .keyError

/-- The sound-path rewrite for retained entries (src/cli.py:557-561):
`entry["pronunciation_file"] = str(extract_dir.joinpath(Path(...).name))`;
a snapshot entry without the key is a `KeyError`. -/
def rewriteSoundPaths (extract_dir : String) :
    List (Int × Entry) → Except PipelineError (List (Int × Entry))
  | [] => .ok []
  | (id, e) :: rest =>
    match e.pronunciation_file with
    | some f =>
      (rewriteSoundPaths extract_dir rest).map
        (fun rest' =>
          (id, { e with pronunciation_file := some (extract_dir ++ "/" ++ pathName f) }) :: rest')
    | none => .error .keyError

structure UpdateOutput where
  archiveFiles : List String
  dataEntries : List (Int × Entry)
  deckInfo : DeckInfo
deriving DecidableEq, Repr

/-- The `update` command (src/cli.py:492-607), from the already-extracted
snapshot (`old_info` = `info.json`, `old_vocab` = `data.json`) and the new
vocabulary text.  Only the mp3 files written by `get_pronunciations` —
i.e. those of the newly translated entries — land in the temporary
directory that `create_zip_and_clean` archives; the retained entries'
sound files stay in the extraction directory (the TODO at src/cli.py:575). -/
def update_pipeline (old_info : DeckInfo) (old_vocab : List (Int × Entry))
    (text : String) (language_names : String → String)
    (gB : String → String) (fA : String → String × String) (output_name : String) :
    Except PipelineError UpdateOutput := do
  let loaded ← (load_vocab text).mapError PipelineError.load
  let input_vocab := loaded.1
  let new_tags := loaded.2
  let diffed := diff_vocab input_vocab old_vocab
  let new_vocab := diffed.1
  let old_vocab_to_copy ← rewriteSoundPaths "Output/extracted" diffed.2
  let google_output := new_vocab.map (fun p => (p.1, gB p.2))
  let deepl_output := new_vocab.map (fun p => (p.1, fA p.2))
  let new_translations ←
    (obtain_translations new_vocab google_output deepl_output).mapError PipelineError.orch
  let withPron := get_pronunciations_entries new_translations ("Output/" ++ output_name)
  let results := dictUpdate old_vocab_to_copy withPron.1
  let results ← assignTags results new_tags
  let new_deck_info := create_anki_deck_info language_names old_info.target_language
      old_info.source_language old_info.verification_language old_info.deck_id
      (some old_info.deck_name)
  if new_deck_info = old_info then
    .ok { archiveFiles := withPron.2 ++ ["data.json", "vocab.csv", "info.json"]
          dataEntries := results
          deckInfo := new_deck_info }
  else .error .deckInfoMismatch

structure CreateOutput where
  archiveFiles : List String
  dataEntries : List (Int × Entry)
  deckInfo : DeckInfo
deriving DecidableEq, Repr

/-- The `create` command (src/cli.py:401-489) downstream of
`check_languages` (an external-catalogue validation with no bearing on the
claims below). -/
def create_pipeline (text : String)
    (source_language target_language verification_language : String)
    (language_names : String → String)
    (gB : String → String) (fA : String → String × String)
    (deck_id : Int) (deck_name : Option String) (output_name : String) :
    Except PipelineError CreateOutput := do
  let loaded ← (load_vocab text).mapError PipelineError.load
  let input_vocab := loaded.1
  let tags := loaded.2
  let google_output := input_vocab.map (fun p => (p.1, gB p.2))
  let deepl_output := input_vocab.map (fun p => (p.1, fA p.2))
  let results ←
    (obtain_translations input_vocab google_output deepl_output).mapError PipelineError.orch
  let results ← assignTags results tags
  let withPron := get_pronunciations_entries results ("Output/" ++ output_name)
  let deck_info := create_anki_deck_info language_names target_language source_language
      verification_language deck_id deck_name
  .ok { archiveFiles := "data.json" :: withPron.2 ++ ["vocab.csv", "info.json"]
        dataEntries := withPron.1
        deckInfo := deck_info }

/-! ## PronunciationStage object identity: `get_pronunciations`
(src/cli.py:267-283)

```python
vocab_with_prounciations = vocab.copy()
for id, value in vocab.items():
    ...
    vocab_with_prounciations[id]["pronunciation_file"] = path
return vocab_with_prounciations
```

`dict.copy()` is shallow: the copy holds the *same* entry records.  To
state that, the outer dict maps ids to references (indices) into a heap of
entry records; the loop mutates the referenced records in place. -/

def setPron (e : Entry) (path : String) : Entry :=
  { e with pronunciation_file := some path }

/-- `get_pronunciations` with object identity made explicit: returns the
(shallow) copy of the outer dict and the post-loop heap. -/
def get_pronunciations (vocab : List (Int × Nat)) (language : String)
    (output_dir : String) (heap : List Entry) : List (Int × Nat) × List Entry :=
  let vocab_with_prounciations := vocab
  (vocab_with_prounciations,
   vocab.foldl (fun h p =>
     h.set p.2 (setPron (h.getD p.2 default) (output_dir ++ "/" ++ toString p.1 ++ ".mp3")))
     heap)

/-! ## Proofs -/

theorem dedupByLower_congr (xs : List String) :
    ∀ s₁ s₂, (∀ a, a ∈ s₁ ↔ a ∈ s₂) → dedupByLower s₁ xs = dedupByLower s₂ xs := by
  induction xs with
  | nil => intro s₁ s₂ _; rfl
  | cons x xs ih =>
    intro s₁ s₂ h
    simp only [dedupByLower]
    by_cases hx : pyLower x ∈ s₁
    · rw [if_pos hx, if_pos ((h _).mp hx)]
      exact ih _ _ h
    · rw [if_neg hx, if_neg (fun hc => hx ((h _).mpr hc))]
      refine congrArg _ (ih _ _ ?_)
      intro a
      simp only [List.mem_cons]
      exact or_congr Iff.rfl (h a)

theorem seenAfter_congr (xs : List String) :
    ∀ s₁ s₂, (∀ a, a ∈ s₁ ↔ a ∈ s₂) →
      ∀ a, (a ∈ seenAfter s₁ xs ↔ a ∈ seenAfter s₂ xs) := by
  induction xs with
  | nil => intro s₁ s₂ h a; exact h a
  | cons x xs ih =>
    intro s₁ s₂ h
    simp only [seenAfter]
    by_cases hx : pyLower x ∈ s₁
    · rw [if_pos hx, if_pos ((h _).mp hx)]
      exact ih _ _ h
    · rw [if_neg hx, if_neg (fun hc => hx ((h _).mpr hc))]
      refine ih _ _ ?_
      intro a
      simp only [List.mem_cons]
      exact or_congr Iff.rfl (h a)

/-- The seen-set only grows. -/
theorem mem_seenAfter_of_seed (xs : List String) :
    ∀ seen a, a ∈ seen → a ∈ seenAfter seen xs := by
  induction xs with
  | nil => intro _ a ha; exact ha
  | cons y ys ih =>
    intro seen a ha
    simp only [seenAfter]
    by_cases hy : pyLower y ∈ seen
    · rw [if_pos hy]; exact ih seen a ha
    · rw [if_neg hy]; exact ih _ a (List.mem_cons_of_mem _ ha)

/-- Any lowercased key of an element of `xs` is in the seen-set after
walking `xs`. -/
theorem mem_seenAfter_of_mem (xs : List String) :
    ∀ seen x, x ∈ xs → pyLower x ∈ seenAfter seen xs := by
  induction xs with
  | nil => intro _ x hx; cases hx
  | cons y ys ih =>
    intro seen x hx
    simp only [seenAfter]
    by_cases hy : pyLower y ∈ seen
    · rw [if_pos hy]
      rcases List.mem_cons.mp hx with rfl | hx'
      · exact mem_seenAfter_of_seed ys seen _ hy
      · exact ih seen x hx'
    · rw [if_neg hy]
      rcases List.mem_cons.mp hx with rfl | hx'
      · exact mem_seenAfter_of_seed ys _ _ (List.mem_cons_self _ _)
      · exact ih _ x hx'

/-- If every element's key is already seen, dedup drops everything. -/
theorem dedupByLower_eq_nil (xs : List String) :
    ∀ seen, (∀ x ∈ xs, pyLower x ∈ seen) → dedupByLower seen xs = [] := by
  induction xs with
  | nil => intro _ _; rfl
  | cons y ys ih =>
    intro seen h
    simp only [dedupByLower]
    rw [if_pos (h y (List.mem_cons_self _ _))]
    exact ih seen (fun x hx => h x (List.mem_cons_of_mem _ hx))

/-- If the keys of `xs` are pairwise distinct and fresh, dedup keeps
everything. -/
theorem dedupByLower_eq_self (xs : List String) :
    ∀ seen, (xs.map pyLower).Nodup → (∀ x ∈ xs, pyLower x ∉ seen) →
      dedupByLower seen xs = xs := by
  induction xs with
  | nil => intro _ _ _; rfl
  | cons y ys ih =>
    intro seen hnd hfresh
    simp only [dedupByLower]
    rw [if_neg (hfresh y (List.mem_cons_self _ _))]
    refine congrArg _ (ih _ (List.nodup_cons.mp (by simpa using hnd)).2 ?_)
    intro x hx
    simp only [List.mem_cons, not_or]
    refine ⟨?_, hfresh x (List.mem_cons_of_mem _ hx)⟩
    intro hxy
    exact (List.nodup_cons.mp (by simpa using hnd)).1 (hxy ▸ List.mem_map_of_mem pyLower hx)

/-- The values of the `insertUnique` fold are the spec-side dedup of the
walked parts appended to the values already present. -/
theorem map_snd_foldl_insertUnique (parts : List String) :
    ∀ m : List (String × String),
      (parts.foldl insertUnique m).map Prod.snd
        = m.map Prod.snd ++ dedupByLower (m.map Prod.fst) parts := by
  induction parts with
  | nil => intro m; simp [dedupByLower]
  | cons p parts ih =>
    intro m
    simp only [List.foldl_cons, dedupByLower, insertUnique]
    by_cases hmem : pyLower p ∈ m.map Prod.fst
    · have hany : m.any (fun kv => kv.1 = pyLower p) = true := by
        rw [List.any_eq_true]
        rcases List.mem_map.mp hmem with ⟨kv, hkv, hfst⟩
        exact ⟨kv, hkv, decide_eq_true hfst⟩
      rw [if_pos hmem, hany]
      simp only [if_true]
      exact ih m
    · have hany : m.any (fun kv => kv.1 = pyLower p) = false := by
        rw [List.any_eq_false]
        intro kv hkv hdec
        exact hmem (List.mem_map.mpr ⟨kv, hkv, of_decide_eq_true hdec⟩)
      rw [if_neg hmem, hany]
      simp only [Bool.false_eq_true, if_false]
      rw [ih (m ++ [(pyLower p, p)])]
      simp only [List.map_append, List.map_cons, List.map_nil]
      rw [List.append_assoc]
      refine congrArg _ ?_
      have hcongr : dedupByLower (m.map Prod.fst ++ [pyLower p]) parts
          = dedupByLower (pyLower p :: m.map Prod.fst) parts := by
        refine dedupByLower_congr parts _ _ ?_
        intro a
        simp [List.mem_append, List.mem_cons, or_comm]
      rw [hcongr]
      rfl

/-- The keys of the `insertUnique` fold are (up to membership) the seen-set
after walking the parts. -/
theorem mem_map_fst_foldl_insertUnique (parts : List String) :
    ∀ (m : List (String × String)) a,
      a ∈ (parts.foldl insertUnique m).map Prod.fst
        ↔ a ∈ seenAfter (m.map Prod.fst) parts := by
  induction parts with
  | nil => intro m a; simp [seenAfter]
  | cons p parts ih =>
    intro m a
    simp only [List.foldl_cons, seenAfter, insertUnique]
    by_cases hmem : pyLower p ∈ m.map Prod.fst
    · have hany : m.any (fun kv => kv.1 = pyLower p) = true := by
        rw [List.any_eq_true]
        rcases List.mem_map.mp hmem with ⟨kv, hkv, hfst⟩
        exact ⟨kv, hkv, decide_eq_true hfst⟩
      rw [if_pos hmem, hany]
      simp only [if_true]
      exact ih m a
    · have hany : m.any (fun kv => kv.1 = pyLower p) = false := by
        rw [List.any_eq_false]
        intro kv hkv hdec
        exact hmem (List.mem_map.mpr ⟨kv, hkv, of_decide_eq_true hdec⟩)
      rw [if_neg hmem, hany]
      simp only [Bool.false_eq_true, if_false]
      rw [ih (m ++ [(pyLower p, p)]) a]
      refine seenAfter_congr parts _ _ ?_ a
      intro b
      simp [List.mem_append, List.mem_cons, or_comm]

/-! ### Join/split identity and dedup algebra -/

theorem splitSlashAux_ne_nil (s acc : List Char) : splitSlashAux s acc ≠ [] := by
  induction s, acc using splitSlashAux.induct with
  | case1 rest acc ih => intro h; simp [splitSlashAux] at h
  | case2 c rest acc hne ih =>
    intro h
    rw [splitSlashAux] at h
    · exact ih h
    · exact hne
  | case3 acc => intro h; simp [splitSlashAux] at h

theorem joinSep_cons (sep : List Char) (x : List Char) (l : List (List Char))
    (h : l ≠ []) : joinSep sep (x :: l) = x ++ sep ++ joinSep sep l := by
  cases l with
  | nil => exact absurd rfl h
  | cons y ys => rfl

/-- Joining the pieces of a `" / "` split restores the original characters. -/
theorem joinSep_splitSlashAux (s acc : List Char) :
    joinSep [' ', '/', ' '] (splitSlashAux s acc) = acc.reverse ++ s := by
  induction s, acc using splitSlashAux.induct with
  | case1 rest acc ih =>
    rw [splitSlashAux, joinSep_cons _ _ _ (splitSlashAux_ne_nil _ _), ih]
    simp
  | case2 c rest acc hne ih =>
    rw [splitSlashAux]
    · rw [ih]; simp
    · exact hne
  | case3 acc =>
    rw [splitSlashAux, joinSep]
    simp

/-- `" / ".join(s.split(" / ")) == s` — the `String`-level identity. -/
theorem pyJoinSlash_pySplitSlash (s : String) : pyJoinSlash (pySplitSlash s) = s := by
  show String.mk _ = s
  rw [pySplitSlash, List.map_map]
  have hmaps : (splitSlashAux s.data []).map (String.data ∘ String.mk)
      = splitSlashAux s.data [] := List.map_id'' (fun l => rfl) _
  rw [hmaps, joinSep_splitSlashAux]
  rfl

/-- Dedup distributes over append, with the seen-set threaded through. -/
theorem dedupByLower_append (xs : List String) :
    ∀ (seen : List String) (ys : List String),
      dedupByLower seen (xs ++ ys)
        = dedupByLower seen xs ++ dedupByLower (seenAfter seen xs) ys := by
  induction xs with
  | nil => intro seen ys; simp [dedupByLower, seenAfter]
  | cons x xs ih =>
    intro seen ys
    simp only [List.cons_append, dedupByLower, seenAfter, List.append_eq]
    by_cases hx : pyLower x ∈ seen
    · rw [if_pos hx, if_pos hx, ih, if_pos hx]
    · rw [if_neg hx, if_neg hx, ih, if_neg hx, List.cons_append]

/-- The target side of `process_translations`, characterised by the
spec-side dedup over provider A's variants followed by provider B's. -/
theorem process_translations_fst (a b v : String) :
    (process_translations a b v).1
      = pyJoinSlash (dedupByLower [] (pySplitSlash a ++ pySplitSlash b)) := by
  show pyJoinSlash (((pySplitSlash b).foldl insertUnique
      ((pySplitSlash a).foldl insertUnique [])).map Prod.snd) = _
  rw [← List.foldl_append, map_snd_foldl_insertUnique]
  rfl

/-- The verification side of `process_translations`, produced from the
back-translation text alone. -/
theorem process_translations_snd (a b v : String) :
    (process_translations a b v).2
      = pyJoinSlash (dedupByLower [] (pySplitSlash v)) := by
  show pyJoinSlash (((pySplitSlash v).foldl insertUnique []).map Prod.snd) = _
  rw [map_snd_foldl_insertUnique]
  rfl

/-- **C3**: `process_translations` splits each input on `" / "`, builds the
target by walking provider A's variants then provider B's, keeping the
first-seen casing of each variant and dropping variants whose lowercased
form was already seen, and joins with the delimiter; the verification text
is produced the same way from the back-translation alone (its value is
independent of the other two inputs).  In particular
`reconcile("a / b", "b / c", "v")` gives target `"a / b / c"` and
`reconcile("Hello", "hello", "v")` gives `"Hello"`. -/
theorem claim_C3_reconciliation_algorithm (a b v : String) :
    (process_translations a b v).1
      = pyJoinSlash (dedupByLower [] (pySplitSlash a ++ pySplitSlash b))
    ∧ (process_translations a b v).2
      = pyJoinSlash (dedupByLower [] (pySplitSlash v))
    ∧ process_translations "a / b" "b / c" "v" = ("a / b / c", "v")
    ∧ process_translations "Hello" "hello" "v" = ("Hello", "v") :=
  ⟨process_translations_fst a b v, process_translations_snd a b v,
   by decide, by decide⟩

/-- **C2 counterexample**: with `X = "a / a"` (both providers agreeing on a
text that itself repeats a variant), the reconciled target is `"a"`,
not `X`; so `reconcile(X, X, Y)` does not return `X` for every `X`. -/
theorem claim_C2_counterexample :
    (process_translations "a / a" "a / a" "v").1 ≠ "a / a"
    ∧ (process_translations "a / a" "a / a" "v").1 = "a" := by
  constructor
  · decide
  · decide

/-- **C2 (amended)**: if the variants of `X` are pairwise distinct after
lowercasing (which holds for every string the dedup stage itself emits),
then `reconcile(X, X, Y)` yields a target text equal to `X`. -/
theorem claim_C2_dedup_idempotence (X Y : String)
    (h : ((pySplitSlash X).map pyLower).Nodup) :
    (process_translations X X Y).1 = X := by
  rw [process_translations_fst, dedupByLower_append,
      dedupByLower_eq_nil _ _ (fun x hx => mem_seenAfter_of_mem _ _ x hx),
      List.append_nil, dedupByLower_eq_self _ _ h (by simp),
      pyJoinSlash_pySplitSlash]

/-- Witness for C2: a concrete `X` with distinct variants. -/
theorem claim_C2_witness :
    ((pySplitSlash "a / b").map pyLower).Nodup
    ∧ (process_translations "a / b" "a / b" "v").1 = "a / b" :=
  ⟨by decide, claim_C2_dedup_idempotence "a / b" "v" (by decide)⟩

theorem dictLookup_map_replace_self {α : Type} (k : Int) (v : α) :
    ∀ m : List (Int × α), m.any (fun kv => kv.1 = k) = true →
      dictLookup (m.map (fun kv => if kv.1 = k then (k, v) else kv)) k = some v := by
  intro m
  induction m with
  | nil => intro h; simp at h
  | cons kv rest ih =>
    intro h
    by_cases hk : kv.1 = k
    · simp [List.map_cons, if_pos hk, dictLookup]
    · simp only [List.map_cons, if_neg hk, dictLookup, if_neg hk]
      refine ih ?_
      simpa [List.any_cons, hk] using h

theorem dictLookup_map_replace_ne {α : Type} (k k' : Int) (v : α) (h : k' ≠ k) :
    ∀ m : List (Int × α),
      dictLookup (m.map (fun kv => if kv.1 = k then (k, v) else kv)) k'
        = dictLookup m k' := by
  intro m
  induction m with
  | nil => rfl
  | cons kv rest ih =>
    by_cases hk : kv.1 = k
    · have hne : ¬ kv.1 = k' := fun hc => h (hc ▸ hk ▸ rfl)
      simp only [List.map_cons, if_pos hk, dictLookup,
        if_neg (fun hc => h hc.symm : ¬ (k, v).1 = k'), if_neg hne]
      exact ih
    · simp only [List.map_cons, if_neg hk, dictLookup]
      by_cases hk' : kv.1 = k'
      · rw [if_pos hk', if_pos hk']
      · rw [if_neg hk', if_neg hk']
        exact ih

theorem dictLookup_append_single_self {α : Type} (k : Int) (v : α) :
    ∀ m : List (Int × α), m.any (fun kv => kv.1 = k) = false →
      dictLookup (m ++ [(k, v)]) k = some v := by
  intro m
  induction m with
  | nil => intro _; simp [dictLookup]
  | cons kv rest ih =>
    intro h
    have hk : ¬ kv.1 = k := by
      intro hc
      simp [List.any_cons, hc] at h
    simp only [List.cons_append, dictLookup, if_neg hk]
    refine ih ?_
    simpa [List.any_cons, hk] using h

theorem dictLookup_append_single_ne {α : Type} (k k' : Int) (v : α) (h : k' ≠ k) :
    ∀ m : List (Int × α), dictLookup (m ++ [(k, v)]) k' = dictLookup m k' := by
  intro m
  induction m with
  | nil => simp [dictLookup, if_neg (fun hc => h hc.symm : ¬ (k, v).1 = k')]
  | cons kv rest ih =>
    simp only [List.cons_append, dictLookup]
    by_cases hk' : kv.1 = k'
    · rw [if_pos hk', if_pos hk']
    · rw [if_neg hk', if_neg hk']
      exact ih

theorem dictLookup_dictInsert_self {α : Type} (m : List (Int × α)) (k : Int) (v : α) :
    dictLookup (dictInsert m k v) k = some v := by
  rw [dictInsert]
  by_cases h : m.any (fun kv => kv.1 = k)
  · rw [if_pos h]
    exact dictLookup_map_replace_self k v m h
  · rw [if_neg h]
    exact dictLookup_append_single_self k v m (Bool.eq_false_iff.mpr h ▸ rfl)

theorem dictLookup_dictInsert_ne {α : Type} (m : List (Int × α)) (k k' : Int) (v : α)
    (h : k' ≠ k) : dictLookup (dictInsert m k v) k' = dictLookup m k' := by
  rw [dictInsert]
  by_cases hany : m.any (fun kv => kv.1 = k)
  · rw [if_pos hany]
    exact dictLookup_map_replace_ne k k' v h m
  · rw [if_neg hany]
    exact dictLookup_append_single_ne k k' v h m

theorem dictLookup_eq_some_mem {α : Type} (m : List (Int × α)) (k : Int) (v : α)
    (h : dictLookup m k = some v) : (k, v) ∈ m := by
  induction m with
  | nil => simp [dictLookup] at h
  | cons kv rest ih =>
    rw [dictLookup] at h
    by_cases hk : kv.1 = k
    · rw [if_pos hk] at h
      obtain ⟨a, b⟩ := kv
      cases hk
      injection h with h'
      cases h'
      exact List.mem_cons_self _ _
    · rw [if_neg hk] at h
      exact List.mem_cons_of_mem _ (ih h)

theorem dictLookup_eq_none_iff {α : Type} (m : List (Int × α)) (k : Int) :
    dictLookup m k = none ↔ k ∉ m.map Prod.fst := by
  induction m with
  | nil => simp [dictLookup]
  | cons kv rest ih =>
    rw [dictLookup]
    by_cases hk : kv.1 = k
    · rw [if_pos hk]
      simp [hk]
    · rw [if_neg hk]
      simp only [List.map_cons, List.mem_cons]
      rw [ih]
      constructor
      · intro h hc
        rcases hc with hc | hc
        · exact hk hc.symm
        · exact h hc
      · intro h hc
        exact h (Or.inr hc)

/-- With unique keys, membership determines the lookup. -/
theorem dictLookup_eq_some_of_mem {α : Type} (m : List (Int × α)) (k : Int) (v : α)
    (hnd : (m.map Prod.fst).Nodup) (h : (k, v) ∈ m) : dictLookup m k = some v := by
  induction m with
  | nil => cases h
  | cons kv rest ih =>
    rw [List.map_cons, List.nodup_cons] at hnd
    rw [dictLookup]
    rcases List.mem_cons.mp h with rfl | hmem
    · rw [if_pos rfl]
    · have hkrest : k ∈ rest.map Prod.fst := by
        simpa using List.mem_map_of_mem Prod.fst hmem
      have hk : ¬ kv.1 = k := fun hc => hnd.1 (hc.symm ▸ hkrest)
      rw [if_neg hk]
      exact ih hnd.2 hmem

theorem mem_of_mem_pyStrip {c : Char} {l : List Char} (h : c ∈ pyStrip l) : c ∈ l := by
  rw [pyStrip, List.mem_reverse] at h
  have h1 : c ∈ (l.dropWhile pyIsSpace).reverse := (List.dropWhile_sublist _).subset h
  rw [List.mem_reverse] at h1
  exact (List.dropWhile_sublist _).subset h1

theorem splitCharAux_no_sep (sep : Char) :
    ∀ (l acc : List Char), (∀ c ∈ l, c ≠ sep) →
      splitCharAux sep l acc = [acc.reverse ++ l] := by
  intro l
  induction l with
  | nil => intro acc _; simp [splitCharAux]
  | cons c rest ih =>
    intro acc h
    rw [splitCharAux, if_neg (h c (List.mem_cons_self _ _)), ih _ (fun x hx => h x (List.mem_cons_of_mem _ hx))]
    simp

/-- A line without a tab character has a single field (its stripped self). -/
theorem lineFields_of_no_tab (line : String) (h : pyContainsChar line '\t' = false) :
    lineFields line = [⟨pyStrip line.data⟩] := by
  rw [lineFields, pySplitTab]
  have hall : ∀ c ∈ pyStrip line.data, c ≠ '\t' := by
    intro c hc hceq
    rw [pyContainsChar, List.any_eq_false] at h
    exact absurd (decide_eq_true hceq) (by simpa using h c (mem_of_mem_pyStrip hc))
  rw [show (⟨pyStrip line.data⟩ : String).data = pyStrip line.data from rfl,
      splitCharAux_no_sep '\t' _ [] hall]
  simp

/-- Processing a batch of lines containing a tabless non-comment line always
raises. -/
theorem load_vocab_loop_error_of_no_tab :
    ∀ (lines : List String) (vd : List (Int × String)) (td : List (Int × List String)),
      (∃ line ∈ lines, pyStartsWithHash line = false ∧ pyContainsChar line '\t' = false) →
      ∃ e, load_vocab_loop lines vd td = .error e := by
  intro lines
  induction lines with
  | nil => intro _ _ h; rcases h with ⟨_, h, _⟩; cases h
  | cons line rest ih =>
    intro vd td h
    rcases h with ⟨w, hw, hwhash, hwtab⟩
    rw [load_vocab_loop]
    by_cases hhash : pyStartsWithHash line
    · rw [if_pos hhash]
      rcases List.mem_cons.mp hw with rfl | hwrest
      · rw [hhash] at hwhash; cases hwhash
      · exact ih vd td ⟨w, hwrest, hwhash, hwtab⟩
    · rw [if_neg hhash]
      rcases List.mem_cons.mp hw with rfl | hwrest
      · rw [show pySplitTab ⟨pyStrip w.data⟩ = lineFields w from rfl,
            lineFields_of_no_tab w hwtab]
        exact ⟨_, rfl⟩
      · cases hfields : pySplitTab ⟨pyStrip line.data⟩ with
        | nil => exact ⟨_, rfl⟩
        | cons idField restf =>
          cases restf with
          | nil => exact ⟨_, rfl⟩
          | cons phrase tags =>
            dsimp only
            cases hint : pyInt? idField with
            | none => exact ⟨_, rfl⟩
            | some index =>
              dsimp only
              cases hdup : dictLookup vd index with
              | some firstPhrase => exact ⟨_, rfl⟩
              | none =>
                dsimp only
                cases hfind : tags.find? (fun t => pyContainsChar t ' ') with
                | some tag => exact ⟨_, rfl⟩
                | none => exact ih _ _ ⟨w, hwrest, hwhash, hwtab⟩

/-- **C10**: a non-comment vocabulary line without a tab character (fewer
than two tab-separated fields) makes `load_vocab` raise an error — there is
no path on which such a line yields an entry or is silently skipped. -/
theorem claim_C10_tabless_line_raises (text : String)
    (h : ∃ line ∈ vocabLines text,
        pyStartsWithHash line = false ∧ pyContainsChar line '\t' = false) :
    ∃ e, load_vocab text = .error e :=
  load_vocab_loop_error_of_no_tab (vocabLines text) [] [] h

/-- Witness for C10: a one-line vocabulary without a tab. -/
theorem claim_C10_witness :
    ∃ e, load_vocab "hello world" = .error e :=
  claim_C10_tabless_line_raises "hello world" (by decide)

/-! ### VocabLoader: duplicate ids and tag validation -/

theorem lineWf_elim (line : String) (hw : lineWf line = true)
    (hhash : pyStartsWithHash line = false) :
    ∃ idField phrase tags index,
      lineFields line = idField :: phrase :: tags ∧ pyInt? idField = some index := by
  rw [lineWf, hhash, Bool.false_or] at hw
  cases hf : lineFields line with
  | nil =>
    rw [hf] at hw
    exact Bool.noConfusion hw
  | cons a l =>
    cases l with
    | nil =>
      rw [hf] at hw
      exact Bool.noConfusion hw
    | cons b l2 =>
      rw [hf] at hw
      rcases Option.isSome_iff_exists.mp hw with ⟨index, hidx⟩
      exact ⟨a, b, l2, index, hf ▸ rfl, hidx⟩

theorem lineId?_of_fields (line idField phrase : String) (tags : List String)
    (hhash : ¬ pyStartsWithHash line = true)
    (hf : lineFields line = idField :: phrase :: tags) :
    lineId? line = pyInt? idField := by
  rw [lineId?, if_neg hhash, hf]

theorem linePhrase?_of_fields (line idField phrase : String) (tags : List String)
    (hhash : ¬ pyStartsWithHash line = true)
    (hf : lineFields line = idField :: phrase :: tags) :
    linePhrase? line = some phrase := by
  rw [linePhrase?, if_neg hhash, hf]

theorem lineTags_of_fields (line idField phrase : String) (tags : List String)
    (hhash : ¬ pyStartsWithHash line = true)
    (hf : lineFields line = idField :: phrase :: tags) :
    lineTags line = tags := by
  rw [lineTags, if_neg hhash, hf]

theorem dictInsert_of_fresh {α : Type} (m : List (Int × α)) (k : Int) (v : α)
    (h : k ∉ m.map Prod.fst) : dictInsert m k v = m ++ [(k, v)] := by
  rw [dictInsert, if_neg]
  intro hany
  rcases List.any_eq_true.mp hany with ⟨kv, hkv, hdec⟩
  exact h (List.mem_map.mpr ⟨kv, hkv, of_decide_eq_true hdec⟩)

/-- If the otherwise well-formed lines repeat an id (relative to the ids
already in `vocab_dict`), the loop raises `duplicateId`, citing a line
carrying that id and the phrase its first occurrence bound. -/
theorem load_vocab_loop_duplicate :
    ∀ (lines : List String) (vd : List (Int × String)) (td : List (Int × List String)),
      (∀ line ∈ lines, lineWf line = true) →
      (∀ line ∈ lines, ∀ t ∈ lineTags line, pyContainsChar t ' ' = false) →
      (vd.map Prod.fst).Nodup →
      ¬ (vd.map Prod.fst ++ lines.filterMap lineId?).Nodup →
      ∃ line id ph, load_vocab_loop lines vd td = .error (.duplicateId line id ph)
        ∧ line ∈ lines ∧ lineId? line = some id
        ∧ ((id, ph) ∈ vd ∨
            ∃ line2 ∈ lines, lineId? line2 = some id ∧ linePhrase? line2 = some ph) := by
  intro lines
  induction lines with
  | nil =>
    intro vd td _ _ hvd hdup
    rw [List.filterMap_nil, List.append_nil] at hdup
    exact absurd hvd hdup
  | cons line rest ih =>
    intro vd td hwf htags hvd hdup
    rw [load_vocab_loop]
    by_cases hhash : pyStartsWithHash line
    · rw [if_pos hhash]
      have hid : lineId? line = none := by rw [lineId?, if_pos hhash]
      rw [List.filterMap_cons, hid] at hdup
      obtain ⟨l, id, ph, herr, hl, hlid, hor⟩ :=
        ih vd td (fun l hl => hwf l (List.mem_cons_of_mem _ hl))
          (fun l hl => htags l (List.mem_cons_of_mem _ hl)) hvd hdup
      refine ⟨l, id, ph, herr, List.mem_cons_of_mem _ hl, hlid, ?_⟩
      rcases hor with h | ⟨l2, hl2, h2id, h2ph⟩
      · exact Or.inl h
      · exact Or.inr ⟨l2, List.mem_cons_of_mem _ hl2, h2id, h2ph⟩
    · rw [if_neg hhash]
      have hhash' : pyStartsWithHash line = false := Bool.eq_false_iff.mpr hhash
      obtain ⟨idField, phrase, tags, index, hf, hidx⟩ :=
        lineWf_elim line (hwf line (List.mem_cons_self _ _)) hhash'
      have hid : lineId? line = some index := by
        rw [lineId?_of_fields line idField phrase tags hhash hf]
        exact hidx
      rw [show pySplitTab ⟨pyStrip line.data⟩ = lineFields line from rfl, hf]
      dsimp only
      rw [hidx]
      dsimp only
      cases hdupk : dictLookup vd index with
      | some firstPhrase =>
        exact ⟨line, index, firstPhrase, rfl, List.mem_cons_self _ _, hid,
          Or.inl (dictLookup_eq_some_mem vd index firstPhrase hdupk)⟩
      | none =>
        dsimp only
        have hfind : tags.find? (fun t => pyContainsChar t ' ') = none := by
          rw [List.find?_eq_none]
          intro t ht
          have := htags line (List.mem_cons_self _ _) t
            ((lineTags_of_fields line idField phrase tags hhash hf).symm ▸ ht)
          simp [this]
        rw [hfind]
        dsimp only
        have hfresh : index ∉ vd.map Prod.fst := (dictLookup_eq_none_iff vd index).mp hdupk
        rw [dictInsert_of_fresh vd index phrase hfresh]
        have hvd' : ((vd ++ [(index, phrase)]).map Prod.fst).Nodup := by
          rw [List.map_append]
          refine List.Nodup.append hvd (by simp) ?_
          intro a ha hb
          simp only [List.map_cons, List.map_nil, List.mem_singleton] at hb
          subst hb
          exact hfresh ha
        have hdup' :
            ¬ ((vd ++ [(index, phrase)]).map Prod.fst ++ rest.filterMap lineId?).Nodup := by
          intro hnd
          apply hdup
          rw [List.filterMap_cons, hid]
          rw [List.map_append, List.append_assoc] at hnd
          simpa using hnd
        obtain ⟨l, id, ph, herr, hl, hlid, hor⟩ :=
          ih (vd ++ [(index, phrase)]) (dictInsert td index tags)
            (fun l hl => hwf l (List.mem_cons_of_mem _ hl))
            (fun l hl => htags l (List.mem_cons_of_mem _ hl)) hvd' hdup'
        refine ⟨l, id, ph, herr, List.mem_cons_of_mem _ hl, hlid, ?_⟩
        rcases hor with hvdmem | ⟨l2, hl2, h2id, h2ph⟩
        · rcases List.mem_append.mp hvdmem with h | h
          · exact Or.inl h
          · simp only [List.mem_singleton] at h
            have h1 : id = index := congrArg Prod.fst h
            have h2 : ph = phrase := congrArg Prod.snd h
            refine Or.inr ⟨line, List.mem_cons_self _ _, ?_, ?_⟩
            · rw [h1]; exact hid
            · rw [h2]; exact linePhrase?_of_fields line idField phrase tags hhash hf
        · exact Or.inr ⟨l2, List.mem_cons_of_mem _ hl2, h2id, h2ph⟩

/-- **C6 counterexample**: in `"1\ta\tb c\n7\tx\n7\ty"` two non-comment
lines carry the id `7`, yet loading fails with the *invalid-tag* error for
line 1 (raised while processing an earlier line), not with a duplicate-id
error. -/
theorem claim_C6_counterexample :
    lineId? "7\tx" = some 7 ∧ lineId? "7\ty" = some 7
    ∧ "7\tx" ∈ vocabLines "1\ta\tb c\n7\tx\n7\ty"
    ∧ "7\ty" ∈ vocabLines "1\ta\tb c\n7\tx\n7\ty"
    ∧ pyStartsWithHash "7\tx" = false ∧ pyStartsWithHash "7\ty" = false
    ∧ load_vocab "1\ta\tb c\n7\tx\n7\ty" = .error (.invalidTag "b c" 1)
    ∧ ∀ line id ph,
        load_vocab "1\ta\tb c\n7\tx\n7\ty" ≠ .error (.duplicateId line id ph) := by
  refine ⟨by decide, by decide, by decide, by decide, by decide, by decide, by decide, ?_⟩
  intro line id ph hcontra
  rw [show load_vocab "1\ta\tb c\n7\tx\n7\ty" = .error (.invalidTag "b c" 1) by decide]
    at hcontra
  simp at hcontra

/-- **C6 (amended)**: for every vocabulary text whose non-comment lines are
all well formed (at least two tab-separated fields, integer id) and carry
no space-bearing tag, if the integer ids of the non-comment lines repeat
then loading fails with a duplicate-id error whose message data references
both occurrences — the offending line (which carries the repeated id) and
the phrase bound by a line carrying the same id — and no entry mapping is
returned. -/
theorem claim_C6_duplicate_id_rejection (text : String)
    (hwf : ∀ line ∈ vocabLines text, lineWf line = true)
    (htags : ∀ line ∈ vocabLines text, ∀ t ∈ lineTags line, pyContainsChar t ' ' = false)
    (hdup : ¬ ((vocabLines text).filterMap lineId?).Nodup) :
    ∃ line id ph, load_vocab text = .error (.duplicateId line id ph)
      ∧ line ∈ vocabLines text ∧ lineId? line = some id
      ∧ ∃ line2 ∈ vocabLines text, lineId? line2 = some id ∧ linePhrase? line2 = some ph := by
  obtain ⟨l, id, ph, herr, hl, hlid, hor⟩ :=
    load_vocab_loop_duplicate (vocabLines text) [] [] hwf htags (by simp) (by simpa using hdup)
  refine ⟨l, id, ph, herr, hl, hlid, ?_⟩
  rcases hor with h | h
  · cases h
  · exact h

/-- Witness for C6: two lines sharing id 7. -/
theorem claim_C6_witness :
    ∃ line id ph, load_vocab "7\ta\n7\tb" = .error (.duplicateId line id ph)
      ∧ line ∈ vocabLines "7\ta\n7\tb" ∧ lineId? line = some id
      ∧ ∃ line2 ∈ vocabLines "7\ta\n7\tb",
          lineId? line2 = some id ∧ linePhrase? line2 = some ph :=
  claim_C6_duplicate_id_rejection "7\ta\n7\tb" (by decide) (by decide) (by decide)

/-- If the well-formed lines have pairwise-distinct ids but some tag
contains a space, the loop raises `invalidTag` for a space-bearing tag. -/
theorem load_vocab_loop_invalid_tag :
    ∀ (lines : List String) (vd : List (Int × String)) (td : List (Int × List String)),
      (∀ line ∈ lines, lineWf line = true) →
      (vd.map Prod.fst ++ lines.filterMap lineId?).Nodup →
      (∃ line ∈ lines, ∃ t ∈ lineTags line, pyContainsChar t ' ' = true) →
      ∃ tag id, load_vocab_loop lines vd td = .error (.invalidTag tag id)
        ∧ pyContainsChar tag ' ' = true := by
  intro lines
  induction lines with
  | nil =>
    intro vd td _ _ hbad
    rcases hbad with ⟨_, h, _⟩
    cases h
  | cons line rest ih =>
    intro vd td hwf hnd hbad
    rw [load_vocab_loop]
    by_cases hhash : pyStartsWithHash line
    · rw [if_pos hhash]
      have hid : lineId? line = none := by rw [lineId?, if_pos hhash]
      rw [List.filterMap_cons, hid] at hnd
      rcases hbad with ⟨w, hw, t, ht, hsp⟩
      rcases List.mem_cons.mp hw with rfl | hwrest
      · rw [lineTags, if_pos hhash] at ht
        cases ht
      · exact ih vd td (fun l hl => hwf l (List.mem_cons_of_mem _ hl)) hnd ⟨w, hwrest, t, ht, hsp⟩
    · rw [if_neg hhash]
      have hhash' : pyStartsWithHash line = false := Bool.eq_false_iff.mpr hhash
      obtain ⟨idField, phrase, tags, index, hf, hidx⟩ :=
        lineWf_elim line (hwf line (List.mem_cons_self _ _)) hhash'
      have hid : lineId? line = some index := by
        rw [lineId?_of_fields line idField phrase tags hhash hf]
        exact hidx
      rw [List.filterMap_cons, hid] at hnd
      rw [show pySplitTab ⟨pyStrip line.data⟩ = lineFields line from rfl, hf]
      dsimp only
      rw [hidx]
      dsimp only
      have hfreshnd := hnd
      have hfresh : index ∉ vd.map Prod.fst := by
        intro hmem
        have := (List.nodup_append.mp hnd).2.2
        exact this hmem (List.mem_cons_self _ _)
      have hlook : dictLookup vd index = none := (dictLookup_eq_none_iff vd index).mpr hfresh
      rw [hlook]
      dsimp only
      cases hfind : tags.find? (fun t => pyContainsChar t ' ') with
      | some tag =>
        exact ⟨tag, index, rfl, by simpa using List.find?_some hfind⟩
      | none =>
        dsimp only
        rcases hbad with ⟨w, hw, t, ht, hsp⟩
        rcases List.mem_cons.mp hw with rfl | hwrest
        · exfalso
          rw [lineTags_of_fields w idField phrase tags hhash hf] at ht
          have := List.find?_eq_none.mp hfind t ht
          rw [hsp] at this
          exact this rfl
        · rw [dictInsert_of_fresh vd index phrase hfresh]
          refine ih (vd ++ [(index, phrase)]) (dictInsert td index tags)
            (fun l hl => hwf l (List.mem_cons_of_mem _ hl)) ?_ ⟨w, hwrest, t, ht, hsp⟩
          rw [List.map_append, List.append_assoc]
          simpa using hnd

/-- A load failure short-circuits `create` before the provider stage: the
outcome is the same for every provider behaviour. -/
theorem create_pipeline_load_error (text : String) (e : LoadError)
    (h : load_vocab text = .error e)
    (sl tl vl : String) (language_names : String → String)
    (gB : String → String) (fA : String → String × String)
    (deck_id : Int) (deck_name : Option String) (output_name : String) :
    create_pipeline text sl tl vl language_names gB fA deck_id deck_name output_name
      = .error (.load e) := by
  rw [create_pipeline, h]
  rfl

/-- **C7 counterexample**: the tag `"a b"` contains U+00A0 NO-BREAK
SPACE — whitespace by Python's own `str.isspace` — yet `load_vocab`
accepts the file: the code only rejects tags containing U+0020. -/
theorem claim_C7_counterexample :
    pyIsSpace ' ' = true
    ∧ "a b" ∈ lineTags "1\tx\ta b"
    ∧ pyContainsChar "a b" ' ' = true
    ∧ load_vocab "1\tx\ta b" = .ok ([(1, "x")], [(1, ["a b"])]) := by
  refine ⟨by decide, by decide, by decide, by decide⟩

/-- **C7 (amended)**: for every vocabulary text whose non-comment lines are
well formed with pairwise-distinct integer ids, if some entry's tag
contains a space (U+0020) then loading fails with the tag-validation
error, raised for a space-bearing tag; and this happens before any
translation call is attempted — the whole `create` run fails with that
same load error uniformly in the behaviour of both translation
providers. -/
theorem claim_C7_tag_validation (text : String)
    (hwf : ∀ line ∈ vocabLines text, lineWf line = true)
    (hnd : ((vocabLines text).filterMap lineId?).Nodup)
    (hbad : ∃ line ∈ vocabLines text, ∃ t ∈ lineTags line, pyContainsChar t ' ' = true) :
    ∃ tag id, load_vocab text = .error (.invalidTag tag id)
      ∧ pyContainsChar tag ' ' = true
      ∧ ∀ (sl tl vl : String) (language_names : String → String)
          (gB : String → String) (fA : String → String × String)
          (deck_id : Int) (deck_name : Option String) (output_name : String),
          create_pipeline text sl tl vl language_names gB fA deck_id deck_name output_name
            = .error (.load (.invalidTag tag id)) := by
  obtain ⟨tag, id, herr, hsp⟩ :=
    load_vocab_loop_invalid_tag (vocabLines text) [] [] hwf (by simpa using hnd) hbad
  exact ⟨tag, id, herr, hsp,
    fun sl tl vl ln gB fA di dn nm =>
      create_pipeline_load_error text _ herr sl tl vl ln gB fA di dn nm⟩

/-- Witness for C7: the spec's own example tag `"food truck"`. -/
theorem claim_C7_witness :
    ∃ tag id, load_vocab "1\tpancakes\tfood truck" = .error (.invalidTag tag id)
      ∧ pyContainsChar tag ' ' = true
      ∧ ∀ (sl tl vl : String) (language_names : String → String)
          (gB : String → String) (fA : String → String × String)
          (deck_id : Int) (deck_name : Option String) (output_name : String),
          create_pipeline "1\tpancakes\tfood truck" sl tl vl language_names gB fA
              deck_id deck_name output_name
            = .error (.load (.invalidTag tag id)) :=
  claim_C7_tag_validation "1\tpancakes\tfood truck" (by decide) (by decide) (by decide)

/-! ### TranslationOrchestrator: the cardinality guard -/

theorem dictLookup_isSome_of_mem_keys {α : Type} (m : List (Int × α)) (k : Int)
    (h : k ∈ m.map Prod.fst) : ∃ v, dictLookup m k = some v := by
  cases hl : dictLookup m k with
  | none => exact absurd ((dictLookup_eq_none_iff m k).mp hl) (fun hc => hc h)
  | some v => exact ⟨v, rfl⟩

/-- The reconciliation loop of `obtain_translations`: with aligned provider
keys it succeeds and produces exactly one reconciled record per id. -/
theorem obtain_go_ok (vocab g : List (Int × String)) :
    ∀ (d : List (Int × String × String)) (acc : List (Int × Entry)),
      (∀ p ∈ d, p.1 ∈ g.map Prod.fst ∧ p.1 ∈ vocab.map Prod.fst) →
      (acc.map Prod.fst ++ d.map Prod.fst).Nodup →
      ∃ res, obtain_go vocab g d acc = .ok res
        ∧ res.map Prod.fst = acc.map Prod.fst ++ d.map Prod.fst
        ∧ (∀ id tv gt ph, (id, tv) ∈ d → dictLookup g id = some gt →
            dictLookup vocab id = some ph →
            dictLookup res id = some ⟨ph, (process_translations tv.1 gt tv.2).1,
              (process_translations tv.1 gt tv.2).2, none, none⟩)
        ∧ (∀ id, id ∈ acc.map Prod.fst → dictLookup res id = dictLookup acc id) := by
  intro d
  induction d with
  | nil =>
    intro acc _ _
    exact ⟨acc, rfl, by simp, fun id tv gt ph h => absurd h (by simp), fun id _ => rfl⟩
  | cons p rest ih =>
    intro acc hkeys hnd
    obtain ⟨id, tv⟩ := p
    obtain ⟨hg, hv⟩ := hkeys (id, tv) (List.mem_cons_self _ _)
    obtain ⟨gt, hgt⟩ := dictLookup_isSome_of_mem_keys g id hg
    obtain ⟨ph, hph⟩ := dictLookup_isSome_of_mem_keys vocab id hv
    rw [obtain_go, hgt, hph]
    dsimp only
    have hfreshacc : id ∉ acc.map Prod.fst := by
      have := (List.nodup_append.mp hnd).2.2
      intro hmem
      exact this hmem (by simp)
    have hins : dictInsert acc id
        (⟨ph, (process_translations tv.1 gt tv.2).1,
          (process_translations tv.1 gt tv.2).2, none, none⟩ : Entry)
        = acc ++ [(id, ⟨ph, (process_translations tv.1 gt tv.2).1,
          (process_translations tv.1 gt tv.2).2, none, none⟩)] :=
      dictInsert_of_fresh acc id _ hfreshacc
    rw [hins]
    have hnd' : ((acc ++ [(id,
        (⟨ph, (process_translations tv.1 gt tv.2).1,
          (process_translations tv.1 gt tv.2).2, none, none⟩ : Entry))]).map Prod.fst
          ++ rest.map Prod.fst).Nodup := by
      rw [List.map_append, List.append_assoc]
      simpa using hnd
    obtain ⟨res, hok, hkeysres, hlook, hframe⟩ :=
      ih _ (fun q hq => hkeys q (List.mem_cons_of_mem _ hq)) hnd'
    refine ⟨res, hok, ?_, ?_, ?_⟩
    · rw [hkeysres, List.map_append, List.append_assoc]
      simp
    · intro id' tv' gt' ph' hmem hgt' hph'
      rcases List.mem_cons.mp hmem with heq | hmem'
      · have h1 : id' = id := congrArg Prod.fst heq
        have h2 : tv' = tv := congrArg Prod.snd heq
        subst h1
        subst h2
        rw [hgt'] at hgt
        rw [hph'] at hph
        injection hgt with hgt
        injection hph with hph
        subst hgt
        subst hph
        rw [hframe id' (by simp)]
        rw [dictLookup_append_single_self]
        rw [List.any_eq_false]
        intro kv hkv
        simp only [decide_eq_true_eq]
        intro hc
        exact hfreshacc (hc ▸ List.mem_map_of_mem Prod.fst hkv)
      · exact hlook id' tv' gt' ph' hmem' hgt' hph'
    · intro id' hid'
      have hne : id' ≠ id := fun hc => hfreshacc (hc ▸ hid')
      rw [hframe id' (by rw [List.map_append]; exact List.mem_append_left _ hid'),
        dictLookup_append_single_ne id id' _ hne]

/-- **C5**: a cardinality mismatch — the batched provider returning the
wrong number of texts (`zip(..., strict=True)`), or the two providers'
result mappings having different sizes (`assert len(deepl_output) ==
len(google_output)`) — aborts the orchestration with an error before any
entry is reconciled (the failing run produces no result mapping at all);
and when both providers produced output for exactly every input id,
reconciliation proceeds for every id, producing one reconciled record per
input id. -/
theorem claim_C5_cardinality_guard (vocab google_output : List (Int × String))
    (deepl_output : List (Int × String × String)) (apiTranslations : List String) :
    (apiTranslations.length ≠ vocab.length →
      translate_google vocab apiTranslations = .error .cardinalityMismatch)
    ∧ (deepl_output.length ≠ google_output.length →
        obtain_translations vocab google_output deepl_output = .error .cardinalityMismatch)
    ∧ (deepl_output.map Prod.fst = vocab.map Prod.fst →
        google_output.map Prod.fst = vocab.map Prod.fst →
        (vocab.map Prod.fst).Nodup →
        ∃ res, obtain_translations vocab google_output deepl_output = .ok res
          ∧ res.map Prod.fst = vocab.map Prod.fst
          ∧ ∀ id tv gt ph, (id, tv) ∈ deepl_output →
              dictLookup google_output id = some gt → dictLookup vocab id = some ph →
              dictLookup res id = some ⟨ph, (process_translations tv.1 gt tv.2).1,
                (process_translations tv.1 gt tv.2).2, none, none⟩) := by
  refine ⟨?_, ?_, ?_⟩
  · intro h
    rw [translate_google, if_neg h]
  · intro h
    rw [obtain_translations, if_neg h]
  · intro hd hg hnd
    have hlen : deepl_output.length = google_output.length := by
      have h1 : deepl_output.length = vocab.length := by
        rw [← List.length_map deepl_output Prod.fst, hd, List.length_map]
      have h2 : google_output.length = vocab.length := by
        rw [← List.length_map google_output Prod.fst, hg, List.length_map]
      rw [h1, h2]
    rw [obtain_translations, if_pos hlen]
    obtain ⟨res, hok, hkeys, hlook, _⟩ :=
      obtain_go_ok vocab google_output deepl_output []
        (fun p hp => ⟨hg ▸ hd ▸ List.mem_map_of_mem Prod.fst hp,
                      hd ▸ List.mem_map_of_mem Prod.fst hp⟩)
        (by rw [List.map_nil, List.nil_append, hd]; exact hnd)
    exact ⟨res, hok, by rw [hkeys, List.map_nil, List.nil_append, hd], hlook⟩

/-- Witness for C5: a dropped provider result aborts; aligned outputs
reconcile every id. -/
theorem claim_C5_witness :
    translate_google [(1, "a"), (2, "b")] ["x"] = .error .cardinalityMismatch
    ∧ obtain_translations [(1, "a")] [] [(1, ("x", "y"))] = .error .cardinalityMismatch
    ∧ ∃ res, obtain_translations [(1, "a")] [(1, "gx")] [(1, ("dx", "dv"))] = .ok res
        ∧ res.map Prod.fst = [1]
        ∧ dictLookup res 1 = some ⟨"a", (process_translations "dx" "gx" "dv").1,
            (process_translations "dx" "gx" "dv").2, none, none⟩ := by
  refine ⟨(claim_C5_cardinality_guard [(1, "a"), (2, "b")] [] [] ["x"]).1 (by decide),
          (claim_C5_cardinality_guard [(1, "a")] [] [(1, ("x", "y"))] []).2.1 (by decide), ?_⟩
  obtain ⟨res, hok, hkeys, hlook⟩ :=
    (claim_C5_cardinality_guard [(1, "a")] [(1, "gx")] [(1, ("dx", "dv"))] []).2.2
      (by decide) (by decide) (by decide)
  exact ⟨res, hok, hkeys,
    hlook 1 ("dx", "dv") "gx" "a" (by decide) (by decide) (by decide)⟩

/-! ### SnapshotDiffer: classification -/

/-- Ids not mentioned by the remaining input are untouched by the diff
loop. -/
theorem diff_go_frame (old_vocab : List (Int × Entry)) :
    ∀ (input nv : List (Int × String)) (oc : List (Int × Entry)) (id : Int),
      id ∉ input.map Prod.fst →
      dictLookup (diff_go old_vocab input nv oc).1 id = dictLookup nv id
      ∧ dictLookup (diff_go old_vocab input nv oc).2 id = dictLookup oc id := by
  intro input
  induction input with
  | nil => intro nv oc id _; exact ⟨rfl, rfl⟩
  | cons p rest ih =>
    intro nv oc id hid
    obtain ⟨i, ph⟩ := p
    have hne : id ≠ i := by
      intro hc
      exact hid (by simp [hc])
    have hidrest : id ∉ rest.map Prod.fst := fun hc => hid (by simp [hc])
    rw [diff_go]
    cases hold : dictLookup old_vocab i with
    | none =>
      dsimp only
      obtain ⟨h1, h2⟩ := ih (dictInsert nv i ph) oc id hidrest
      rw [h1, h2, dictLookup_dictInsert_ne nv i id ph hne]
      exact ⟨rfl, rfl⟩
    | some old_entry =>
      dsimp only
      by_cases hsrc : old_entry.source = ph
      · rw [if_pos hsrc]
        obtain ⟨h1, h2⟩ := ih nv (dictInsert oc i old_entry) id hidrest
        rw [h1, h2, dictLookup_dictInsert_ne oc i id old_entry hne]
        exact ⟨rfl, rfl⟩
      · rw [if_neg hsrc]
        obtain ⟨h1, h2⟩ := ih (dictInsert nv i ph) oc id hidrest
        rw [h1, h2, dictLookup_dictInsert_ne nv i id ph hne]
        exact ⟨rfl, rfl⟩

/-- Classification of an input entry by the diff loop. -/
theorem diff_go_spec (old_vocab : List (Int × Entry)) :
    ∀ (input nv : List (Int × String)) (oc : List (Int × Entry)) (id : Int) (ph : String),
      (id, ph) ∈ input → (input.map Prod.fst).Nodup →
      ((dictLookup old_vocab id = none →
        dictLookup (diff_go old_vocab input nv oc).1 id = some ph
        ∧ dictLookup (diff_go old_vocab input nv oc).2 id = dictLookup oc id)
      ∧ (∀ e, dictLookup old_vocab id = some e → e.source = ph →
        dictLookup (diff_go old_vocab input nv oc).2 id = some e
        ∧ dictLookup (diff_go old_vocab input nv oc).1 id = dictLookup nv id)
      ∧ (∀ e, dictLookup old_vocab id = some e → e.source ≠ ph →
        dictLookup (diff_go old_vocab input nv oc).1 id = some ph
        ∧ dictLookup (diff_go old_vocab input nv oc).2 id = dictLookup oc id)) := by
  intro input
  induction input with
  | nil => intro nv oc id ph h; cases h
  | cons p rest ih =>
    intro nv oc id ph hmem hnd
    obtain ⟨i, q⟩ := p
    rw [List.map_cons, List.nodup_cons] at hnd
    rcases List.mem_cons.mp hmem with heq | hrest
    · have h1 : id = i := congrArg Prod.fst heq
      have h2 : ph = q := congrArg Prod.snd heq
      subst h1
      subst h2
      have hidrest : id ∉ rest.map Prod.fst := hnd.1
      rw [diff_go]
      refine ⟨?_, ?_, ?_⟩
      · intro hold
        rw [hold]
        dsimp only
        obtain ⟨hf1, hf2⟩ := diff_go_frame old_vocab rest (dictInsert nv id ph) oc id hidrest
        rw [hf1, hf2, dictLookup_dictInsert_self]
        exact ⟨rfl, rfl⟩
      · intro e hold hsrc
        rw [hold]
        dsimp only
        rw [if_pos hsrc]
        obtain ⟨hf1, hf2⟩ := diff_go_frame old_vocab rest nv (dictInsert oc id e) id hidrest
        rw [hf1, hf2, dictLookup_dictInsert_self]
        exact ⟨rfl, rfl⟩
      · intro e hold hsrc
        rw [hold]
        dsimp only
        rw [if_neg hsrc]
        obtain ⟨hf1, hf2⟩ := diff_go_frame old_vocab rest (dictInsert nv id ph) oc id hidrest
        rw [hf1, hf2, dictLookup_dictInsert_self]
        exact ⟨rfl, rfl⟩
    · have hne : id ≠ i := by
        intro hc
        apply hnd.1
        rw [← hc]
        exact List.mem_map.mpr ⟨(id, ph), hrest, rfl⟩
      rw [diff_go]
      cases hold : dictLookup old_vocab i with
      | none =>
        dsimp only
        obtain ⟨c1, c2, c3⟩ := ih (dictInsert nv i q) oc id ph hrest hnd.2
        refine ⟨fun h => (c1 h).imp (fun h2 => h2) ?_,
          fun e h hs => (c2 e h hs).imp (fun h2 => h2) ?_,
          fun e h hs => (c3 e h hs).imp (fun h2 => h2) ?_⟩
        · intro h2; exact h2
        · intro h2
          rw [h2, dictLookup_dictInsert_ne nv i id q hne]
        · intro h2; exact h2
      | some old_entry =>
        dsimp only
        by_cases hsrc : old_entry.source = q
        · rw [if_pos hsrc]
          obtain ⟨c1, c2, c3⟩ := ih nv (dictInsert oc i old_entry) id ph hrest hnd.2
          refine ⟨fun h => (c1 h).imp (fun h2 => h2) ?_, fun e h hs => c2 e h hs,
            fun e h hs => (c3 e h hs).imp (fun h2 => h2) ?_⟩
          · intro h2
            rw [h2, dictLookup_dictInsert_ne oc i id old_entry hne]
          · intro h2
            rw [h2, dictLookup_dictInsert_ne oc i id old_entry hne]
        · rw [if_neg hsrc]
          obtain ⟨c1, c2, c3⟩ := ih (dictInsert nv i q) oc id ph hrest hnd.2
          refine ⟨fun h => (c1 h).imp (fun h2 => h2) ?_,
            fun e h hs => (c2 e h hs).imp (fun h2 => h2) ?_,
            fun e h hs => (c3 e h hs).imp (fun h2 => h2) ?_⟩
          · intro h2; exact h2
          · intro h2
            rw [h2, dictLookup_dictInsert_ne nv i id q hne]
          · intro h2; exact h2

/-- **C4**: the update diff classifies every entry of the new vocabulary:
absent from the old snapshot → to-translate; present with identical source
text → retained, carrying its whole snapshot record (target, verification,
audio reference) forward unmodified; present with different source text →
to-translate; and an id absent from the new vocabulary — in particular one
present only in the old snapshot — lands in neither set. -/
theorem claim_C4_diff_classification (input_vocab : List (Int × String))
    (old_vocab : List (Int × Entry)) (id : Int)
    (hnd : (input_vocab.map Prod.fst).Nodup) :
    (∀ ph, (id, ph) ∈ input_vocab → dictLookup old_vocab id = none →
      dictLookup (diff_vocab input_vocab old_vocab).1 id = some ph
      ∧ dictLookup (diff_vocab input_vocab old_vocab).2 id = none)
    ∧ (∀ ph e, (id, ph) ∈ input_vocab → dictLookup old_vocab id = some e → e.source = ph →
      dictLookup (diff_vocab input_vocab old_vocab).2 id = some e
      ∧ dictLookup (diff_vocab input_vocab old_vocab).1 id = none)
    ∧ (∀ ph e, (id, ph) ∈ input_vocab → dictLookup old_vocab id = some e → e.source ≠ ph →
      dictLookup (diff_vocab input_vocab old_vocab).1 id = some ph
      ∧ dictLookup (diff_vocab input_vocab old_vocab).2 id = none)
    ∧ (id ∉ input_vocab.map Prod.fst →
      dictLookup (diff_vocab input_vocab old_vocab).1 id = none
      ∧ dictLookup (diff_vocab input_vocab old_vocab).2 id = none) := by
  refine ⟨?_, ?_, ?_, ?_⟩
  · intro ph hmem hold
    obtain ⟨c1, _, _⟩ := diff_go_spec old_vocab input_vocab [] [] id ph hmem hnd
    exact c1 hold
  · intro ph e hmem hold hsrc
    obtain ⟨_, c2, _⟩ := diff_go_spec old_vocab input_vocab [] [] id ph hmem hnd
    exact c2 e hold hsrc
  · intro ph e hmem hold hsrc
    obtain ⟨_, _, c3⟩ := diff_go_spec old_vocab input_vocab [] [] id ph hmem hnd
    exact c3 e hold hsrc
  · intro hmem
    exact diff_go_frame old_vocab input_vocab [] [] id hmem

/-- Witness for C4, on the spec's own test data: id 1 unchanged →
retained with its whole record; id 2 new → to-translate; id 3 only in the
old snapshot → in neither set; and, separately, id 1 changed to `"Hi"` →
to-translate. -/
theorem claim_C4_witness :
    (dictLookup (diff_vocab [(1, "Hello"), (2, "New")]
        [(1, ⟨"Hello", "G", "H", some "o/1.mp3", some ["t"]⟩),
         (3, ⟨"Bye", "A", "D", some "o/3.mp3", some []⟩)]).2 1
      = some ⟨"Hello", "G", "H", some "o/1.mp3", some ["t"]⟩
      ∧ dictLookup (diff_vocab [(1, "Hello"), (2, "New")]
        [(1, ⟨"Hello", "G", "H", some "o/1.mp3", some ["t"]⟩),
         (3, ⟨"Bye", "A", "D", some "o/3.mp3", some []⟩)]).1 1 = none)
    ∧ (dictLookup (diff_vocab [(1, "Hello"), (2, "New")]
        [(1, ⟨"Hello", "G", "H", some "o/1.mp3", some ["t"]⟩),
         (3, ⟨"Bye", "A", "D", some "o/3.mp3", some []⟩)]).1 2 = some "New"
      ∧ dictLookup (diff_vocab [(1, "Hello"), (2, "New")]
        [(1, ⟨"Hello", "G", "H", some "o/1.mp3", some ["t"]⟩),
         (3, ⟨"Bye", "A", "D", some "o/3.mp3", some []⟩)]).2 2 = none)
    ∧ (dictLookup (diff_vocab [(1, "Hello"), (2, "New")]
        [(1, ⟨"Hello", "G", "H", some "o/1.mp3", some ["t"]⟩),
         (3, ⟨"Bye", "A", "D", some "o/3.mp3", some []⟩)]).1 3 = none
      ∧ dictLookup (diff_vocab [(1, "Hello"), (2, "New")]
        [(1, ⟨"Hello", "G", "H", some "o/1.mp3", some ["t"]⟩),
         (3, ⟨"Bye", "A", "D", some "o/3.mp3", some []⟩)]).2 3 = none)
    ∧ dictLookup (diff_vocab [(1, "Hi")]
        [(1, ⟨"Hello", "G", "H", some "o/1.mp3", some ["t"]⟩)]).1 1 = some "Hi" := by
  refine ⟨?_, ?_, ?_, ?_⟩
  · exact (claim_C4_diff_classification [(1, "Hello"), (2, "New")]
      [(1, ⟨"Hello", "G", "H", some "o/1.mp3", some ["t"]⟩),
       (3, ⟨"Bye", "A", "D", some "o/3.mp3", some []⟩)] 1 (by decide)).2.1
      "Hello" ⟨"Hello", "G", "H", some "o/1.mp3", some ["t"]⟩
      (by decide) (by decide) (by decide)
  · exact (claim_C4_diff_classification [(1, "Hello"), (2, "New")]
      [(1, ⟨"Hello", "G", "H", some "o/1.mp3", some ["t"]⟩),
       (3, ⟨"Bye", "A", "D", some "o/3.mp3", some []⟩)] 2 (by decide)).1
      "New" (by decide) (by decide)
  · exact (claim_C4_diff_classification [(1, "Hello"), (2, "New")]
      [(1, ⟨"Hello", "G", "H", some "o/1.mp3", some ["t"]⟩),
       (3, ⟨"Bye", "A", "D", some "o/3.mp3", some []⟩)] 3 (by decide)).2.2.2
      (by decide)
  · exact ((claim_C4_diff_classification [(1, "Hi")]
      [(1, ⟨"Hello", "G", "H", some "o/1.mp3", some ["t"]⟩)] 1 (by decide)).2.2.1
      "Hi" ⟨"Hello", "G", "H", some "o/1.mp3", some ["t"]⟩
      (by decide) (by decide) (by decide)).1

/-! ### The update pipeline: post-update consistency and the archive -/

theorem bind_ok_inv {ε α β : Type} (x : Except ε α) (f : α → Except ε β) (b : β)
    (h : x >>= f = .ok b) : ∃ a, x = .ok a ∧ f a = .ok b := by
  cases x with
  | ok a => exact ⟨a, rfl, h⟩
  | error e => exact Except.noConfusion h

theorem mapError_ok_inv {ε ε' α : Type} (g : ε → ε') (x : Except ε α) (a : α)
    (h : Except.mapError g x = .ok a) : x = .ok a := by
  cases x with
  | ok v =>
    injection h with h'
    rw [h']
  | error e => exact Except.noConfusion h

/-- Inverting a successful `update` run: the rebuilt deck metadata passed
the `assert new_deck_info == deck_info` check, so it equals the loaded
snapshot's metadata, and it is the metadata of the produced output. -/
theorem update_pipeline_ok_inv (old_info : DeckInfo) (old_vocab : List (Int × Entry))
    (text : String) (language_names : String → String)
    (gB : String → String) (fA : String → String × String) (output_name : String)
    (out : UpdateOutput)
    (h : update_pipeline old_info old_vocab text language_names gB fA output_name = .ok out) :
    create_anki_deck_info language_names old_info.target_language old_info.source_language
        old_info.verification_language old_info.deck_id (some old_info.deck_name) = old_info
    ∧ out.deckInfo = old_info := by
  rw [update_pipeline] at h
  obtain ⟨loaded, _, h⟩ := bind_ok_inv _ _ _ h
  try dsimp only at h
  obtain ⟨old_to_copy, _, h⟩ := bind_ok_inv _ _ _ h
  try dsimp only at h
  obtain ⟨trans, _, h⟩ := bind_ok_inv _ _ _ h
  try dsimp only at h
  obtain ⟨results, _, h⟩ := bind_ok_inv _ _ _ h
  try dsimp only at h
  by_cases heq : create_anki_deck_info language_names old_info.target_language
      old_info.source_language old_info.verification_language old_info.deck_id
      (some old_info.deck_name) = old_info
  · rw [if_pos heq] at h
    injection h with h'
    rw [← h']
    exact ⟨heq, heq⟩
  · rw [if_neg heq] at h
    exact Except.noConfusion h

/-- **C8**: after every successful `update` run the new deck's identity
metadata (deck id, deck name, language triple) exactly equals the loaded
snapshot's; and if the rebuilt metadata diverges from the snapshot's, the
run errors out (`assert new_deck_info == deck_info`) and never reaches
`create_zip_and_clean` — no output, hence no final archive, is
produced. -/
theorem claim_C8_post_update_consistency (old_info : DeckInfo)
    (old_vocab : List (Int × Entry)) (text : String)
    (language_names : String → String) (gB : String → String)
    (fA : String → String × String) (output_name : String) :
    (∀ out, update_pipeline old_info old_vocab text language_names gB fA output_name
        = .ok out → out.deckInfo = old_info)
    ∧ (create_anki_deck_info language_names old_info.target_language
        old_info.source_language old_info.verification_language old_info.deck_id
        (some old_info.deck_name) ≠ old_info →
       ∀ out, update_pipeline old_info old_vocab text language_names gB fA output_name
          ≠ .ok out) := by
  constructor
  · intro out h
    exact (update_pipeline_ok_inv old_info old_vocab text language_names gB fA
      output_name out h).2
  · intro hne out h
    exact hne (update_pipeline_ok_inv old_info old_vocab text language_names gB fA
      output_name out h).1

/-- Witness for C8: a successful concrete update preserves the metadata. -/
theorem claim_C8_witness :
    ∃ out, update_pipeline ⟨5, "Deck", "en", "el", "nl"⟩ [] ""
        (fun _ => "Greek") (fun _ => "") (fun _ => ("", "")) "run1" = .ok out
      ∧ out.deckInfo = ⟨5, "Deck", "en", "el", "nl"⟩ := by
  have hok : update_pipeline ⟨5, "Deck", "en", "el", "nl"⟩ [] ""
      (fun _ => "Greek") (fun _ => "") (fun _ => ("", "")) "run1"
      = .ok ⟨["data.json", "vocab.csv", "info.json"], [], ⟨5, "Deck", "en", "el", "nl"⟩⟩ := by
    decide
  exact ⟨_, hok,
    (claim_C8_post_update_consistency ⟨5, "Deck", "en", "el", "nl"⟩ [] ""
      (fun _ => "Greek") (fun _ => "") (fun _ => ("", "")) "run1").1 _ hok⟩

/-- **C1 (code bug evidence)**: an `update` run that retains entry id 1
(vocabulary line unchanged from the snapshot) succeeds, its entry-data
document still lists id 1 with an audio reference — pointing into the
extraction directory, which `update` deletes at the end — but the archive
it produces contains no `1.mp3`: only the sounds of newly translated
entries are written into the archived temporary directory.  (The code
acknowledges the omission: see the TODO at src/cli.py:575.) -/
theorem claim_C1_update_archive_missing_retained_audio :
    ∃ out, update_pipeline ⟨1, "My deck", "en", "el", "nl"⟩
        [(1, ⟨"Hello", "Gamma", "Hoi", some "Output/old/1.mp3", some ["greeting"]⟩)]
        "1\tHello\tgreeting" (fun _ => "Greek") (fun _ => "") (fun _ => ("", "")) "run1"
      = .ok out
      ∧ (∃ e, (1, e) ∈ out.dataEntries
          ∧ e.pronunciation_file = some "Output/extracted/1.mp3")
      ∧ "1.mp3" ∉ out.archiveFiles := by
  refine ⟨⟨["data.json", "vocab.csv", "info.json"],
      [(1, ⟨"Hello", "Gamma", "Hoi", some "Output/extracted/1.mp3", some ["greeting"]⟩)],
      ⟨1, "My deck", "en", "el", "nl"⟩⟩, by decide, ?_, by decide⟩
  exact ⟨⟨"Hello", "Gamma", "Hoi", some "Output/extracted/1.mp3", some ["greeting"]⟩,
    by decide, by decide⟩

/-! ### PronunciationStage: the shallow copy mutates the caller's records -/

theorem pronFold_length (output_dir : String) :
    ∀ (vocab : List (Int × Nat)) (heap : List Entry),
      (vocab.foldl (fun h p =>
          h.set p.2 (setPron (h.getD p.2 default) (output_dir ++ "/" ++ toString p.1 ++ ".mp3")))
        heap).length = heap.length := by
  intro vocab
  induction vocab with
  | nil => intro heap; rfl
  | cons q rest ih =>
    intro heap
    rw [List.foldl_cons, ih, List.length_set]

theorem pronFold_persist (output_dir : String) :
    ∀ (vocab : List (Int × Nat)) (heap : List Entry) (i : Nat),
      (heap.getD i default).pronunciation_file.isSome = true →
      ((vocab.foldl (fun h p =>
          h.set p.2 (setPron (h.getD p.2 default) (output_dir ++ "/" ++ toString p.1 ++ ".mp3")))
        heap).getD i default).pronunciation_file.isSome = true := by
  intro vocab
  induction vocab with
  | nil => intro heap i h; exact h
  | cons q rest ih =>
    intro heap i h
    rw [List.foldl_cons]
    by_cases hlt : i < heap.length
    · by_cases hqi : q.2 = i
      · refine ih _ i ?_
        rw [hqi, List.getD_eq_getElem?_getD, List.getElem?_set_self]
        · rfl
        · simpa using hlt
      · refine ih _ i ?_
        rw [List.getD_eq_getElem?_getD, List.getElem?_set_ne hqi,
          ← List.getD_eq_getElem?_getD]
        exact h
    · exfalso
      rw [List.getD_eq_getElem?_getD, List.getElem?_eq_none (by omega)] at h
      exact Bool.noConfusion h

/-- **C9**: `get_pronunciations` copies the outer dict only — the returned
mapping holds the very same entry records as the input — and its loop
mutates those shared records, so after the call every record reachable
from the *caller's* input mapping has gained the `pronunciation_file`
key. -/
theorem claim_C9_shallow_copy_mutates_input (vocab : List (Int × Nat))
    (language output_dir : String) (heap : List Entry)
    (hrange : ∀ p ∈ vocab, p.2 < heap.length) :
    (get_pronunciations vocab language output_dir heap).1 = vocab
    ∧ ∀ p ∈ vocab,
        (((get_pronunciations vocab language output_dir heap).2).getD p.2
          default).pronunciation_file.isSome = true := by
  refine ⟨rfl, ?_⟩
  show ∀ p ∈ vocab,
    ((vocab.foldl (fun h p =>
        h.set p.2 (setPron (h.getD p.2 default) (output_dir ++ "/" ++ toString p.1 ++ ".mp3")))
      heap).getD p.2 default).pronunciation_file.isSome = true
  induction vocab generalizing heap with
  | nil => intro p hp; cases hp
  | cons q rest ih =>
    intro p hp
    rw [List.foldl_cons]
    rcases List.mem_cons.mp hp with rfl | hprest
    · refine pronFold_persist output_dir rest _ p.2 ?_
      rw [List.getD_eq_getElem?_getD, List.getElem?_set_self]
      · rfl
      · simpa using hrange p (List.mem_cons_self _ _)
    · refine ih _ ?_ p hprest
      intro r hr
      rw [List.length_set]
      exact hrange r (List.mem_cons_of_mem _ hr)

/-- Witness for C9. -/
theorem claim_C9_witness :
    (get_pronunciations [(1, 0)] "el" "Output/run1" [⟨"Hello", "G", "H", none, none⟩]).1
      = [(1, 0)]
    ∧ ∀ p ∈ [((1 : Int), (0 : Nat))],
        (((get_pronunciations [(1, 0)] "el" "Output/run1"
            [⟨"Hello", "G", "H", none, none⟩]).2).getD p.2
          default).pronunciation_file.isSome = true :=
  claim_C9_shallow_copy_mutates_input [(1, 0)] "el" "Output/run1"
    [⟨"Hello", "G", "H", none, none⟩] (by decide)
